import Mathlib

/-!
# I2C master/slave test pair

A shallow embedding of `examples/i2c_test/i2c_slave/i2c_slave.cpp` and
`examples/i2c_test/i2c_master/i2c_master.cpp`.

The two programs talk to the outside world through `Wire` (the bus driver),
`millis`/`delay` (the clock) and the assertion macros of the unit-test
library.  Every call that is visible from outside is recorded in an event
log carried by the state, so that statements such as "the handler performs
exactly one write" or "no store goes past the end of the array" can be read
off the log.
-/

namespace I2CTest

/-! ## Data model -/

/-- One octet on the bus, also the value of a `char` cell. -/
abbrev Byte := Fin 256

/-- The characters of the literal "hello slave". -/
def helloSlave : List Byte := [104, 101, 108, 108, 111, 32, 115, 108, 97, 118, 101]

/-- The characters of the literal "hello master". -/
def helloMaster : List Byte := [104, 101, 108, 108, 111, 32, 109, 97, 115, 116, 101, 114]

/-- The object `MASTER_MESSAGE` points to: the characters of the literal followed by
its terminating NUL. -/
def MASTER_MESSAGE : List Byte := helloSlave ++ [0]

/-- The object `SLAVE_MESSAGE` points to: the characters of the literal followed by
its terminating NUL. -/
def SLAVE_MESSAGE : List Byte := helloMaster ++ [0]

/-- The constant `SLAVE_ADDRESS = 0x01`, the same in both programs. -/
def SLAVE_ADDRESS : Byte := 1

/-- The constant `TIMEOUT = 5000` of the slave program. -/
def TIMEOUT : Nat := 5000

/-- Number of values of `size_t` on the 32-bit target. -/
def SIZE_MOD : Nat := 2 ^ 32

/-- Number of values of the tick counter returned by `millis()` (a 32-bit unsigned). -/
def TICK_MOD : Nat := 2 ^ 32

/-- Subtraction of two `size_t` values: the difference when it is not negative,
otherwise the difference wrapped around modulo `SIZE_MOD`. -/
def sizeSub (a b : Nat) : Nat :=
  if b ≤ a then a - b else (a + SIZE_MOD - b) % SIZE_MOD

/-- Subtraction of two tick readings in 32-bit unsigned arithmetic
(`millis() - timeStarted`). -/
def tickSub (a b : Nat) : Nat := (a + TICK_MOD - b) % TICK_MOD

/-- The two completion flags of the slave program. -/
inductive Flag where
  | received
  | sent
  deriving DecidableEq, Repr

/-- Calls and stores that are visible from outside a function. -/
inductive Event where
  /-- A call `Wire.read()` that returned this byte. -/
  | busRead (b : Byte)
  /-- The assignment `buffer[idx] = b`. -/
  | store (idx : Nat) (b : Byte)
  /-- One call `Wire.write(ptr, len)` with the bytes it was handed. -/
  | busWrite (payload : List Byte)
  /-- The assignment `flag = true`. -/
  | setFlag (f : Flag)
  /-- One call `delay(ms)`. -/
  | delay (ms : Nat)
  /-- One evaluation of `millis() - timeStarted >= TIMEOUT` with the difference computed. -/
  | timeoutCheck (elapsed : Nat)
  /-- One call `Wire.beginTransmission(address)`. -/
  | beginTransmission (address : Byte)
  /-- One call `Wire.endTransmission()` and the status it returned. -/
  | endTransmission (status : Nat)
  /-- One call `Wire.requestFrom(address, quantity)`. -/
  | requestFrom (address : Byte) (quantity : Nat)
  deriving DecidableEq, Repr

/-- The bytes returned by the `Wire.read()` calls of a log, in order. -/
def reads : List Event → List Byte
  | [] => []
  | .busRead b :: rest => b :: reads rest
  | _ :: rest => reads rest

/-- The stores into the buffer recorded in a log, in order. -/
def stores : List Event → List (Nat × Byte)
  | [] => []
  | .store i b :: rest => (i, b) :: stores rest
  | _ :: rest => stores rest

/-- The payloads of the `Wire.write` calls of a log, in order. -/
def writes : List Event → List (List Byte)
  | [] => []
  | .busWrite p :: rest => p :: writes rest
  | _ :: rest => writes rest

/-- The number of `delay` calls and timeout checks recorded in a log. -/
def waits : List Event → Nat
  | [] => 0
  | .delay _ :: rest => waits rest + 1
  | .timeoutCheck _ :: rest => waits rest + 1
  | _ :: rest => waits rest

/-! ## C library -/

/-- The C library `strlen`: the number of bytes before the first NUL.  The end of
the list stands for the end of the object. -/
def strlen : List Byte → Nat
  | [] => 0
  | b :: rest => if b = 0 then 0 else strlen rest + 1

/-- The C library `strcmp`: walks both strings until they differ or a NUL is met
and returns the difference of the two bytes where it stops.  A list that ends
is read as if a NUL followed. -/
def strcmp : List Byte → List Byte → Int
  | [], [] => 0
  | [], b :: _ => 0 - (b.val : Int)
  | a :: _, [] => (a.val : Int)
  | a :: as, b :: bs =>
    if a ≠ b then (a.val : Int) - (b.val : Int)
    else if a = 0 then 0
    else strcmp as bs

/-- The C string stored in a region of memory: the bytes before the first NUL. -/
def cstr (mem : List Byte) : List Byte := mem.takeWhile (fun b => b ≠ 0)

/-! ## Drain loop

Both programs contain the same loop

    size_t size = 0;
    while (Wire.available() > 0 && size < sizeof(buffer) - 1) {
        buffer[size++] = Wire.read();
    }
-/

/-- The variables the drain loop works on. -/
structure Drain where
  /-- Bytes still waiting in the receive queue of `Wire`. -/
  rx : List Byte
  /-- The local `size`. -/
  size : Nat
  /-- The array `buffer`. -/
  buffer : List Byte
  /-- The event log. -/
  log : List Event
  deriving DecidableEq, Repr

/-- The drain loop.  `Wire.available()` is the length of the receive queue,
`Wire.read()` removes its first byte.  `limit` is the value of
`sizeof(buffer) - 1`.  The increment of `size` cannot wrap: it only runs
when `size < limit`. -/
def drainLoop (limit : Nat) : List Byte → Nat → List Byte → List Event → Drain
  | [], size, buffer, log => ⟨[], size, buffer, log⟩
  | b :: rest, size, buffer, log =>
    if size < limit then
      drainLoop limit rest (size + 1) (buffer.set size b) (log ++ [.busRead b, .store size b])
    else ⟨b :: rest, size, buffer, log⟩

/-! ## Slave program -/

/-- The globals of the slave program together with the bus queue, the clock and
the event log.  `sizeof(buffer)` is the length of `buffer`. -/
structure Slave where
  /-- The global `buffer`. -/
  buffer : List Byte
  /-- The global `received`. -/
  received : Bool
  /-- The global `sent`. -/
  sent : Bool
  /-- The receive queue of `Wire`. -/
  rx : List Byte
  /-- Time since power-up, not wrapped. -/
  now : Nat
  /-- The event log. -/
  log : List Event
  deriving DecidableEq, Repr

/-- The slave at process start: `buffer` zero-filled with `I2C_BUFFER_LENGTH = C`
cells, both flags false. -/
def Slave.init (C : Nat) : Slave :=
  { buffer := List.replicate C 0, received := false, sent := false,
    rx := [], now := 0, log := [] }

/-- The function `onReceive(int)`. -/
def onReceive (_hint : Int) (s : Slave) : Slave :=
  let d := drainLoop (sizeSub s.buffer.length 1) s.rx 0 s.buffer s.log
  { s with
    rx := d.rx
    buffer := d.buffer.set d.size 0
    received := true
    log := d.log ++ [.store d.size 0, .setFlag .received] }

/-- The call `Wire.write(ptr, len)` on the slave: hands the first `len` bytes at `ptr`
to the bus. -/
def wireWrite (ptr : List Byte) (len : Nat) (s : Slave) : Slave :=
  { s with log := s.log ++ [.busWrite (ptr.take len)] }

/-- The function `onRequest()`. -/
def onRequest (s : Slave) : Slave :=
  let s1 := wireWrite SLAVE_MESSAGE (strlen SLAVE_MESSAGE) s
  { s1 with sent := true, log := s1.log ++ [.setFlag .sent] }

/-- Reading a flag through the reference handed to `waitFlag`. -/
def readFlag : Flag → Slave → Bool
  | .received, s => s.received
  | .sent, s => s.sent

/-- The reading of `millis()`. -/
def millis (s : Slave) : Nat := s.now % TICK_MOD

/-- What the bus may do to the slave while the main flow sits in `delay`. -/
inductive Interrupt where
  /-- A write transaction arrived: the driver fills its receive queue with the
  incoming bytes and calls `onReceive(hint)`. -/
  | receive (hint : Int) (incoming : List Byte)
  /-- A read request arrived: the driver calls `onRequest()`. -/
  | request
  deriving DecidableEq, Repr

/-- The flag the handler started by an interrupt assigns. -/
def Interrupt.flag : Interrupt → Flag
  | .receive _ _ => .received
  | .request => .sent

/-- The driver servicing one interrupt. -/
def service : Interrupt → Slave → Slave
  | .receive hint incoming, s => onReceive hint { s with rx := incoming }
  | .request, s => onRequest s

/-- The driver servicing interrupts one after the other. -/
def serviceAll : List Interrupt → Slave → Slave
  | [], s => s
  | i :: rest, s => serviceAll rest (service i s)

/-- The surroundings of one `waitFlag` call: how long the `k`-th call of `delay(100)`
really takes and which interrupts are serviced while it runs. -/
structure Env where
  /-- Time that passes during the `k`-th `delay(100)`. -/
  dur : Nat → Nat
  /-- Interrupts serviced during the `k`-th `delay(100)`. -/
  irq : Nat → List Interrupt

/-- Surroundings in which `delay(100)` takes exactly 100 ticks and nothing interrupts. -/
def Env.quiet : Env := { dur := fun _ => 100, irq := fun _ => [] }

/-- One call `delay(100)`, the `k`-th of the current `waitFlag`. -/
def delayStep (env : Env) (k : Nat) (s : Slave) : Slave :=
  serviceAll (env.irq k) { s with now := s.now + env.dur k, log := s.log ++ [.delay 100] }

/-- The loop of `waitFlag`.  `none` as result means the loop is still running when the
fuel is used up. -/
def waitLoop (env : Env) (f : Flag) (timeStarted : Nat) : Nat → Nat → Slave → Option Bool × Slave
  | 0, _, s => (none, s)
  | fuel + 1, k, s =>
    if readFlag f s then (some true, s)
    else
      let s1 := delayStep env k s
      let el := tickSub (millis s1) timeStarted
      let s2 := { s1 with log := s1.log ++ [.timeoutCheck el] }
      if TIMEOUT ≤ el then (some false, s2)
      else waitLoop env f timeStarted fuel (k + 1) s2

/-- The function `waitFlag(flag)`. -/
def waitFlag (fuel : Nat) (env : Env) (f : Flag) (s : Slave) : Option Bool × Slave :=
  waitLoop env f (millis s) fuel 0 s

/-- Why a test stopped at an assertion. -/
inductive Failure where
  /-- The assertion `assertEqual(Wire.endTransmission(), 0)`. -/
  | transmissionFailure
  /-- The assertion `assertMore(Wire.requestFrom(...), 0)`. -/
  | requestFailure
  /-- The assertion `assertEqual(strcmp(buffer, ...), 0)`. -/
  | contentMismatch
  /-- The assertion `assertTrue(waitFlag(...))`. -/
  | timeout
  deriving DecidableEq, Repr

/-- How a test ends: every assertion held, or the first one that did not (the
assertion macros leave the test at the first failure). -/
inductive Outcome where
  | pass
  | fail (why : Failure)
  deriving DecidableEq, Repr

/-- The slave test `master_can_send_and_slave_can_receive_data`. -/
def slaveReceiveTest (fuel : Nat) (env : Env) (s : Slave) : Option Outcome × Slave :=
  match waitFlag fuel env .received s with
  | (none, s1) => (none, s1)
  | (some false, s1) => (some (.fail .timeout), s1)
  | (some true, s1) =>
    if strcmp s1.buffer MASTER_MESSAGE = 0 then (some .pass, s1)
    else (some (.fail .contentMismatch), s1)

/-- The slave test `slave_can_send_and_master_can_receive_data`. -/
def slaveSendTest (fuel : Nat) (env : Env) (s : Slave) : Option Outcome × Slave :=
  match waitFlag fuel env .sent s with
  | (none, s1) => (none, s1)
  | (some false, s1) => (some (.fail .timeout), s1)
  | (some true, s1) => (some .pass, s1)

/-- What the slave's main flow and the bus can do, for runs of several steps. -/
inductive Op where
  | onReceive (hint : Int) (incoming : List Byte)
  | onRequest
  | waitFlag (fuel : Nat) (env : Env) (f : Flag)

/-- One step of the slave. -/
def Op.run : Op → Slave → Slave
  | .onReceive hint incoming, s => service (.receive hint incoming) s
  | .onRequest, s => service .request s
  | .waitFlag fuel env f, s => (I2CTest.waitFlag fuel env f s).2

/-- A run of several steps. -/
def runOps : List Op → Slave → Slave
  | [], s => s
  | op :: rest, s => runOps rest (op.run s)

/-! ## Master program -/

/-- The bus-side state of the master: the receive queue of `Wire` and the event log. -/
structure Master where
  /-- The receive queue of `Wire`. -/
  rx : List Byte
  /-- The event log. -/
  log : List Event
  deriving DecidableEq, Repr

/-- The master test `master_can_send_and_slave_can_receive_data`.  `status` is what
`Wire.endTransmission()` returns. -/
def masterWriteTest (status : Nat) (m : Master) : Outcome × Master :=
  let m1 : Master := { m with log := m.log ++ [.beginTransmission SLAVE_ADDRESS] }
  let m2 : Master :=
    { m1 with log := m1.log ++ [.busWrite (MASTER_MESSAGE.take (strlen MASTER_MESSAGE))] }
  let m3 : Master := { m2 with log := m2.log ++ [.endTransmission status] }
  if status = 0 then (.pass, m3) else (.fail .transmissionFailure, m3)

/-- The master test `slave_can_send_and_master_can_receive_data` with
`I2C_BUFFER_LENGTH = C`.  `count` is what `Wire.requestFrom` returns and
`response` the bytes it leaves in the receive queue. -/
def masterReadTest (C : Nat) (count : Int) (response : List Byte) (m : Master) :
    Outcome × Master :=
  let buffer : List Byte := List.replicate C 0
  let m1 : Master :=
    { rx := response, log := m.log ++ [.requestFrom SLAVE_ADDRESS buffer.length] }
  if 0 < count then
    let d := drainLoop (sizeSub buffer.length 1) m1.rx 0 buffer m1.log
    let buffer1 := d.buffer.set d.size 0
    let m2 : Master := { rx := d.rx, log := d.log ++ [.store d.size 0] }
    if strcmp buffer1 SLAVE_MESSAGE = 0 then (.pass, m2)
    else (.fail .contentMismatch, m2)
  else (.fail .requestFailure, m1)

/-! ## Ideal bus -/

/-- The bytes an ideal bus hands to the peripheral bound to `bound`: the payloads
written inside transactions addressed to `bound`, unchanged and complete.
`cur` is the address of the open transaction, if any. -/
def delivered (bound : Byte) : Option Byte → List Event → List Byte
  | _, [] => []
  | _, .beginTransmission a :: rest => delivered bound (some a) rest
  | _, .endTransmission _ :: rest => delivered bound none rest
  | some a, .busWrite p :: rest =>
    if a = bound then p ++ delivered bound (some a) rest else delivered bound (some a) rest
  | cur, _ :: rest => delivered bound cur rest

/-- The bytes an ideal bus hands to the controller after a read request: everything
the peripheral wrote, unchanged and complete. -/
def answered (log : List Event) : List Byte := (writes log).flatten

/-- One write exchange over an ideal bus: the controller runs its write test, the bus
reports success, and when a transaction was opened to the address `bound` the
peripheral bound to it gets the bytes written, unchanged and complete, and its driver
calls `onReceive(hint)`. -/
def writeRound (bound : Byte) (hint : Int) (m : Master) (s : Slave) :
    Outcome × Master × Slave :=
  let r := masterWriteTest 0 m
  let ev := r.2.log.drop m.log.length
  if Event.beginTransmission bound ∈ ev then
    (r.1, r.2, service (Interrupt.receive hint (delivered bound none ev)) s)
  else (r.1, r.2, s)

/-- One read exchange over an ideal bus: the request of the controller reaches the
peripheral when it is bound to the requested address, its driver calls `onRequest()`,
and the controller gets what the peripheral wrote, unchanged and complete up to the
requested quantity `C`, and is told how many bytes that is. -/
def readRound (C : Nat) (bound : Byte) (m : Master) (s : Slave) :
    Outcome × Master × Slave :=
  let s1 := if SLAVE_ADDRESS = bound then service Interrupt.request s else s
  let response := (answered (s1.log.drop s.log.length)).take C
  let r := masterReadTest C (response.length : Int) response m
  (r.1, r.2, s1)

/-- The flags assigned in a log, in order. -/
def flagSets : List Event → List Flag
  | [] => []
  | .setFlag f :: rest => f :: flagSets rest
  | _ :: rest => flagSets rest

/-! ## Sample inputs -/

/-- A slave with a four-cell buffer while five bytes wait in the receive queue. -/
def overfull : Slave := { Slave.init 4 with rx := [1, 2, 3, 4, 5] }

/-- A slave with a 32-cell buffer, filled with a non-zero byte, while "hello slave"
waits in the receive queue. -/
def greeted : Slave :=
  { Slave.init 32 with buffer := List.replicate 32 7, rx := helloSlave }

/-- Surroundings in which every `delay(100)` takes exactly 100 ticks and the bus
delivers "hello slave" during the fiftieth `delay`, that is between 4900 and 5000
ticks after the start of the wait. -/
def Env.late : Env :=
  { dur := fun _ => 100
    irq := fun k => if k = 49 then [Interrupt.receive 11 helloSlave] else [] }

/-- The bytes "hello master", a NUL and one more byte: 14 bytes a bus may deliver. -/
def helloMasterNulX : List Byte := helloMaster ++ [0, 120]

/-! ## Closed forms used in the proofs -/

/-- The events the drain loop logs while it moves the bytes `bs` to the indices
`i, i + 1, ...`. -/
def drainEvents : Nat → List Byte → List Event
  | _, [] => []
  | i, b :: bs => Event.busRead b :: Event.store i b :: drainEvents (i + 1) bs

/-- The array after the bytes `bs` were stored at the indices `i, i + 1, ...`. -/
def fill : List Byte → Nat → List Byte → List Byte
  | buf, _, [] => buf
  | buf, i, b :: bs => fill (buf.set i b) (i + 1) bs

/-! ## Lemmas on logs -/

theorem reads_append (l₁ l₂ : List Event) : reads (l₁ ++ l₂) = reads l₁ ++ reads l₂ := by
  induction l₁ with
  | nil => rfl
  | cons e l ih => cases e <;> simp [reads, ih]

theorem stores_append (l₁ l₂ : List Event) : stores (l₁ ++ l₂) = stores l₁ ++ stores l₂ := by
  induction l₁ with
  | nil => rfl
  | cons e l ih => cases e <;> simp [stores, ih]

theorem writes_append (l₁ l₂ : List Event) : writes (l₁ ++ l₂) = writes l₁ ++ writes l₂ := by
  induction l₁ with
  | nil => rfl
  | cons e l ih => cases e <;> simp [writes, ih]

theorem reads_drainEvents (bs : List Byte) : ∀ i, reads (drainEvents i bs) = bs := by
  induction bs with
  | nil => intro i; rfl
  | cons b bs ih => intro i; simp [drainEvents, reads, ih]

theorem stores_drainEvents_fst (bs : List Byte) :
    ∀ i, (stores (drainEvents i bs)).map Prod.fst = List.range' i bs.length := by
  induction bs with
  | nil => intro i; rfl
  | cons b bs ih => intro i; simp [drainEvents, stores, ih, List.range']

theorem stores_drainEvents_snd (bs : List Byte) :
    ∀ i, (stores (drainEvents i bs)).map Prod.snd = bs := by
  induction bs with
  | nil => intro i; rfl
  | cons b bs ih => intro i; simp [drainEvents, stores, ih]

/-! ## Lemmas on the drain loop -/

theorem drainLoop_eq (limit : Nat) :
    ∀ (rx : List Byte) (size : Nat) (buf : List Byte) (log : List Event),
      drainLoop limit rx size buf log =
        ⟨rx.drop (limit - size), size + (rx.take (limit - size)).length,
          fill buf size (rx.take (limit - size)),
          log ++ drainEvents size (rx.take (limit - size))⟩
  | [], size, buf, log => by simp [drainLoop, fill, drainEvents]
  | b :: rest, size, buf, log => by
    by_cases h : size < limit
    · obtain ⟨n, hn⟩ : ∃ n, limit - size = n + 1 := ⟨limit - size - 1, by omega⟩
      have hn2 : limit - (size + 1) = n := by omega
      rw [drainLoop, if_pos h, drainLoop_eq limit rest, hn, hn2]
      simp [fill, drainEvents]
      omega
    · have h0 : limit - size = 0 := by omega
      simp [drainLoop, h, h0, fill, drainEvents]

theorem length_fill (bs : List Byte) : ∀ (buf : List Byte) (i : Nat),
    (fill buf i bs).length = buf.length := by
  induction bs with
  | nil => intro buf i; rfl
  | cons b bs ih => intro buf i; simp [fill, ih]

theorem fill_eq (bs : List Byte) : ∀ (buf : List Byte) (i : Nat),
    i + bs.length ≤ buf.length →
      fill buf i bs = buf.take i ++ bs ++ buf.drop (i + bs.length) := by
  induction bs with
  | nil => intro buf i _; simp [fill]
  | cons b bs ih =>
    intro buf i h
    simp only [List.length_cons] at h
    have hi : i < buf.length := by omega
    rw [fill, ih (buf.set i b) (i + 1) (by simp; omega)]
    rw [List.drop_set_of_lt b buf (by omega : i < i + 1 + bs.length), List.take_succ]
    have hget : (buf.set i b)[i]? = some b := by simp [hi]
    have htake : List.take i (buf.set i b) = List.take i buf := by
      rw [List.set_take]
      exact List.set_eq_of_length_le (by simp)
    rw [hget, htake]
    simp [Nat.add_assoc, Nat.add_comm 1]

theorem terminate_fill (bs buf : List Byte) (h : bs.length < buf.length) :
    (fill buf 0 bs).set bs.length 0 = bs ++ 0 :: buf.drop (bs.length + 1) := by
  rw [fill_eq bs buf 0 (by omega)]
  simp only [List.take_zero, List.nil_append, Nat.zero_add]
  rw [List.set_append, if_neg (Nat.lt_irrefl _), Nat.sub_self, List.drop_eq_getElem_cons h]
  rfl

theorem sizeSub_one (C : Nat) (hC : 1 ≤ C) : sizeSub C 1 = C - 1 := by
  simp [sizeSub, hC]

/-- For operands that are `size_t` values, `sizeSub` is subtraction modulo `SIZE_MOD`. -/
theorem sizeSub_eq_mod (a b : Nat) (ha : a < SIZE_MOD) :
    sizeSub a b = (a + SIZE_MOD - b) % SIZE_MOD := by
  unfold sizeSub
  split
  · rename_i h
    have : a + SIZE_MOD - b = (a - b) + SIZE_MOD := by omega
    rw [this, Nat.add_mod_right, Nat.mod_eq_of_lt (by omega)]
  · rfl

/-! ## Lemmas on the C library functions -/

theorem cstr_nil : cstr [] = [] := rfl

theorem cstr_cons (b : Byte) (bs : List Byte) :
    cstr (b :: bs) = if b = 0 then [] else b :: cstr bs := by
  by_cases h : b = 0 <;> simp [cstr, List.takeWhile, h]

theorem val_ne_zero (b : Byte) (h : b ≠ 0) : ((b : Nat) : Int) ≠ 0 := by
  intro h0
  apply h
  apply Fin.ext
  simpa using h0

theorem val_sub_ne_zero (a b : Byte) (h : a ≠ b) : ((a : Nat) : Int) - ((b : Nat) : Int) ≠ 0 := by
  intro h0
  apply h
  apply Fin.ext
  omega

theorem strcmp_eq_zero_iff : ∀ a b : List Byte, strcmp a b = 0 ↔ cstr a = cstr b
  | [], [] => by simp [strcmp]
  | [], b :: bs => by
    by_cases hb : b = 0
    · subst hb; simp [strcmp, cstr_cons, cstr_nil]
    · simp [strcmp, cstr_cons, cstr_nil, hb, val_ne_zero b hb]
  | a :: as, [] => by
    by_cases ha : a = 0
    · subst ha; simp [strcmp, cstr_cons, cstr_nil]
    · simp [strcmp, cstr_cons, cstr_nil, ha, val_ne_zero a ha]
  | a :: as, b :: bs => by
    by_cases hab : a = b
    · subst hab
      by_cases ha : a = 0
      · subst ha; simp [strcmp, cstr_cons]
      · simp [strcmp, cstr_cons, ha, strcmp_eq_zero_iff as bs]
    · have hne := val_sub_ne_zero a b hab
      have hba : ¬ b = a := fun h => hab h.symm
      by_cases ha : a = 0
      · subst ha
        have hn : (b : Nat) ≠ 0 := fun h => hba (Fin.ext h)
        simp [strcmp, cstr_cons, hab, hba, hn]
      · by_cases hb : b = 0
        · subst hb
          have hn : (a : Nat) ≠ 0 := fun h => ha (Fin.ext h)
          simp [strcmp, cstr_cons, hab, ha, hn]
        · simp [strcmp, cstr_cons, hab, hne, ha, hb]

theorem cstr_append_nul (bs rest : List Byte) (h : ∀ b ∈ bs, b ≠ 0) :
    cstr (bs ++ 0 :: rest) = bs := by
  induction bs with
  | nil => simp [cstr_cons]
  | cons b bs ih =>
    have hb : b ≠ 0 := h b (by simp)
    have := ih (fun x hx => h x (by simp [hx]))
    simp [cstr_cons, hb, this]

theorem helloSlave_no_nul : ∀ b ∈ helloSlave, b ≠ 0 := by
  simp [helloSlave]

theorem helloMaster_no_nul : ∀ b ∈ helloMaster, b ≠ 0 := by
  simp [helloMaster]

theorem cstr_MASTER_MESSAGE : cstr MASTER_MESSAGE = helloSlave := by
  simpa [MASTER_MESSAGE] using cstr_append_nul helloSlave [] helloSlave_no_nul

theorem cstr_SLAVE_MESSAGE : cstr SLAVE_MESSAGE = helloMaster := by
  simpa [SLAVE_MESSAGE] using cstr_append_nul helloMaster [] helloMaster_no_nul

/-! ## Lemmas on `onReceive` -/

theorem onReceive_log (hint : Int) (s : Slave) (hC : 1 ≤ s.buffer.length) :
    (onReceive hint s).log =
      s.log ++ (drainEvents 0 (s.rx.take (s.buffer.length - 1)) ++
        [Event.store (min s.rx.length (s.buffer.length - 1)) 0, Event.setFlag Flag.received]) := by
  simp [onReceive, drainLoop_eq, sizeSub_one _ hC, Nat.min_comm]

theorem onReceive_buffer (hint : Int) (s : Slave) (hC : 1 ≤ s.buffer.length) :
    (onReceive hint s).buffer =
      s.rx.take (s.buffer.length - 1) ++
        0 :: s.buffer.drop (min s.rx.length (s.buffer.length - 1) + 1) := by
  have hlen : (s.rx.take (s.buffer.length - 1)).length < s.buffer.length := by
    simp; omega
  have := terminate_fill (s.rx.take (s.buffer.length - 1)) s.buffer hlen
  simp only [List.length_take] at this
  simp [onReceive, drainLoop_eq, sizeSub_one _ hC, this, Nat.min_comm]

theorem strlen_SLAVE_MESSAGE : strlen SLAVE_MESSAGE = 12 := by decide

theorem strlen_MASTER_MESSAGE : strlen MASTER_MESSAGE = 11 := by decide

theorem waitLoop_true (env : Env) (f : Flag) (t fuel k : Nat) (s : Slave)
    (h : readFlag f s = true) : waitLoop env f t (fuel + 1) k s = (some true, s) := by
  simp [waitLoop, h]

/-! ## The drain of `onReceive` stays inside the buffer -/

/-- C1: for every capacity `C ≥ 1`, every content of the receive queue and every length
hint, one run of `onReceive` reads exactly the first `k = min(available, C - 1)` bytes
(so at most `C - 1`), stores them at the indices `0 .. k - 1`, stores the terminator at
index `k ≤ C - 1`, and every index it stores to is below `C`. -/
theorem onReceive_bounded (hint : Int) (s : Slave) (hC : 1 ≤ s.buffer.length) :
    ∃ ev, (onReceive hint s).log = s.log ++ ev ∧
      reads ev = s.rx.take (min s.rx.length (s.buffer.length - 1)) ∧
      (reads ev).length ≤ s.buffer.length - 1 ∧
      (stores ev).map Prod.fst = List.range (min s.rx.length (s.buffer.length - 1) + 1) ∧
      (stores ev).map Prod.snd = s.rx.take (min s.rx.length (s.buffer.length - 1)) ++ [0] ∧
      min s.rx.length (s.buffer.length - 1) ≤ s.buffer.length - 1 ∧
      (∀ p ∈ stores ev, p.1 < s.buffer.length) ∧
      (onReceive hint s).buffer.length = s.buffer.length := by
  have htake : s.rx.take (min s.rx.length (s.buffer.length - 1)) =
      s.rx.take (s.buffer.length - 1) := by
    rw [Nat.min_comm, ← List.take_take, List.take_length]
  have hfst : (stores (drainEvents 0 (s.rx.take (s.buffer.length - 1)) ++
      [Event.store (min s.rx.length (s.buffer.length - 1)) 0,
        Event.setFlag Flag.received])).map Prod.fst =
      List.range (min s.rx.length (s.buffer.length - 1) + 1) := by
    rw [stores_append, List.map_append, stores_drainEvents_fst, List.range_succ,
      List.range_eq_range']
    simp [stores, Nat.min_comm]
  refine ⟨_, onReceive_log hint s hC, ?_, ?_, hfst, ?_, Nat.min_le_right _ _, ?_, ?_⟩
  · rw [reads_append, reads_drainEvents, htake]
    simp [reads]
  · rw [reads_append, reads_drainEvents]
    simp [reads]
  · rw [stores_append, List.map_append, stores_drainEvents_snd, htake]
    simp [stores]
  · intro p hp
    have hmem : p.1 ∈ List.range (min s.rx.length (s.buffer.length - 1) + 1) := by
      rw [← hfst]
      exact List.mem_map_of_mem Prod.fst hp
    have := List.mem_range.mp hmem
    omega
  · rw [onReceive_buffer hint s hC]
    simp only [List.length_append, List.length_take, List.length_cons, List.length_drop]
    omega

/-- C1 at a four-cell buffer with five bytes waiting: three reads, stores at the indices
0, 1, 2, 3 only. -/
theorem onReceive_bounded_witness :
    1 ≤ overfull.buffer.length ∧
      ∃ ev, (onReceive 5 overfull).log = overfull.log ++ ev ∧
        reads ev = [1, 2, 3] ∧ (stores ev).map Prod.fst = [0, 1, 2, 3] ∧
        ∀ p ∈ stores ev, p.1 < 4 := by
  refine ⟨by decide, ?_⟩
  obtain ⟨ev, h1, h2, _, h4, _, _, h7, _⟩ := onReceive_bounded 5 overfull (by decide)
  exact ⟨ev, h1, h2, h4, h7⟩

/-! ## What `onReceive` leaves in the buffer -/

theorem onReceive_buffer_short (hint : Int) (s : Slave) (hC : 1 ≤ s.buffer.length)
    (hn : s.rx.length ≤ s.buffer.length - 1) :
    (onReceive hint s).buffer = s.rx ++ 0 :: s.buffer.drop (s.rx.length + 1) := by
  rw [onReceive_buffer hint s hC, List.take_of_length_le hn, Nat.min_eq_left hn]

theorem onReceive_hello (hint : Int) (s : Slave) (hC : 1 ≤ s.buffer.length)
    (hn : s.rx.length ≤ s.buffer.length - 1) (hrx : s.rx = helloSlave) :
    cstr (onReceive hint s).buffer = helloSlave ∧
      (onReceive hint s).buffer.take 12 = MASTER_MESSAGE ∧
      strcmp (onReceive hint s).buffer MASTER_MESSAGE = 0 ∧
      ∀ fuel env, slaveReceiveTest (fuel + 1) env (onReceive hint s) =
        (some Outcome.pass, onReceive hint s) := by
  have hbuf := onReceive_buffer_short hint s hC hn
  have hrecv : readFlag Flag.received (onReceive hint s) = true := rfl
  have hcstr : cstr (onReceive hint s).buffer = helloSlave := by
    rw [hbuf, hrx]
    exact cstr_append_nul _ _ helloSlave_no_nul
  have hcmp : strcmp (onReceive hint s).buffer MASTER_MESSAGE = 0 := by
    rw [strcmp_eq_zero_iff, hcstr, cstr_MASTER_MESSAGE]
  refine ⟨hcstr, ?_, hcmp, ?_⟩
  · rw [hbuf, hrx]
    rfl
  · intro fuel env
    simp [slaveReceiveTest, waitFlag, waitLoop_true env Flag.received _ fuel 0 _ hrecv, hcmp]

/-- C2: when the `n ≤ C - 1` bytes waiting in the receive queue are drained by
`onReceive`, the buffer holds exactly those bytes at the indices `0 .. n - 1`, in order,
the cell at index `n` is the terminator and `received` is true.  When the bytes are
"hello slave" the C string in the buffer is "hello slave", its terminator is at index
11, and the comparison of the slave test with `MASTER_MESSAGE` gives 0, so that the
test passes. -/
theorem onReceive_stores_message (hint : Int) (s : Slave) (hC : 1 ≤ s.buffer.length)
    (hn : s.rx.length ≤ s.buffer.length - 1) :
    (onReceive hint s).buffer.take s.rx.length = s.rx ∧
      (onReceive hint s).buffer[s.rx.length]? = some 0 ∧
      (onReceive hint s).buffer.length = s.buffer.length ∧
      (onReceive hint s).received = true ∧
      (s.rx = helloSlave →
        cstr (onReceive hint s).buffer = helloSlave ∧
        (onReceive hint s).buffer.take 12 = MASTER_MESSAGE ∧
        strcmp (onReceive hint s).buffer MASTER_MESSAGE = 0 ∧
        ∀ fuel env, slaveReceiveTest (fuel + 1) env (onReceive hint s) =
          (some Outcome.pass, onReceive hint s)) := by
  have hbuf := onReceive_buffer_short hint s hC hn
  refine ⟨?_, ?_, ?_, rfl, onReceive_hello hint s hC hn⟩
  · rw [hbuf, List.take_left]
  · rw [hbuf, List.getElem?_append_right (Nat.le_refl _)]
    simp
  · rw [hbuf]
    simp only [List.length_append, List.length_cons, List.length_drop]
    omega

/-- C2 at a 32-cell buffer full of sevens with "hello slave" waiting. -/
theorem onReceive_stores_message_witness :
    (onReceive 11 greeted).buffer.take 11 = helloSlave ∧
      (onReceive 11 greeted).buffer[11]? = some 0 ∧
      strcmp (onReceive 11 greeted).buffer MASTER_MESSAGE = 0 := by
  obtain ⟨h1, h2, _, _, h5⟩ := onReceive_stores_message 11 greeted (by decide) (by decide)
  exact ⟨h1, h2, (h5 rfl).2.2.1⟩

theorem onRequest_log (s : Slave) :
    (onRequest s).log = s.log ++ [Event.busWrite helloMaster, Event.setFlag Flag.sent] := by
  have hpay : SLAVE_MESSAGE.take (strlen SLAVE_MESSAGE) = helloMaster := by
    rw [strlen_SLAVE_MESSAGE]; rfl
  simp [onRequest, wireWrite, hpay]

/-! ## `onRequest` -/

/-- C9: from every prior state, one run of `onRequest` adds exactly one `Wire.write` to
the log, whose payload is the 12 bytes "hello master" without the terminator; `sent`
still has its old value after the write and is assigned true after it. -/
theorem onRequest_writes_once (s : Slave) :
    (onRequest s).log = s.log ++ [Event.busWrite helloMaster, Event.setFlag Flag.sent] ∧
      writes ((onRequest s).log.drop s.log.length) = [helloMaster] ∧
      helloMaster.length = 12 ∧
      (wireWrite SLAVE_MESSAGE (strlen SLAVE_MESSAGE) s).sent = s.sent ∧
      (onRequest s).sent = true := by
  have hpay : SLAVE_MESSAGE.take (strlen SLAVE_MESSAGE) = helloMaster := by
    rw [strlen_SLAVE_MESSAGE]; rfl
  have hlog : (onRequest s).log =
      s.log ++ [Event.busWrite helloMaster, Event.setFlag Flag.sent] := by
    simp [onRequest, wireWrite, hpay]
  refine ⟨hlog, ?_, rfl, rfl, rfl⟩
  rw [hlog, List.drop_left]
  rfl

/-! ## Lemmas on the handlers seen from `waitFlag` -/

theorem service_now (i : Interrupt) (s : Slave) : (service i s).now = s.now := by
  cases i <;> rfl

theorem serviceAll_now (is : List Interrupt) : ∀ s : Slave, (serviceAll is s).now = s.now := by
  induction is with
  | nil => intro s; rfl
  | cons i is ih => intro s; rw [serviceAll, ih, service_now]

theorem readFlag_service (f : Flag) (i : Interrupt) (s : Slave) (h : i.flag ≠ f) :
    readFlag f (service i s) = readFlag f s := by
  cases i <;> cases f <;> first | rfl | exact absurd rfl h

theorem readFlag_serviceAll (f : Flag) (is : List Interrupt) :
    ∀ s : Slave, (∀ i ∈ is, i.flag ≠ f) → readFlag f (serviceAll is s) = readFlag f s := by
  induction is with
  | nil => intro s _; rfl
  | cons i is ih =>
    intro s h
    rw [serviceAll, ih _ (fun j hj => h j (by simp [hj])), readFlag_service f i s (h i (by simp))]

theorem service_mono (f : Flag) (i : Interrupt) (s : Slave) (h : readFlag f s = true) :
    readFlag f (service i s) = true := by
  cases i <;> cases f <;> first | rfl | exact h

theorem serviceAll_mono (f : Flag) (is : List Interrupt) :
    ∀ s : Slave, readFlag f s = true → readFlag f (serviceAll is s) = true := by
  induction is with
  | nil => intro s h; exact h
  | cons i is ih => intro s h; exact ih _ (service_mono f i s h)

theorem delayStep_now (env : Env) (k : Nat) (s : Slave) :
    (delayStep env k s).now = s.now + env.dur k := by
  rw [delayStep, serviceAll_now]

theorem readFlag_delayStep (env : Env) (f : Flag) (k : Nat) (s : Slave)
    (h : ∀ i ∈ env.irq k, i.flag ≠ f) : readFlag f (delayStep env k s) = readFlag f s := by
  rw [delayStep, readFlag_serviceAll f _ _ h]
  cases f <;> rfl

theorem delayStep_mono (env : Env) (f : Flag) (k : Nat) (s : Slave) (h : readFlag f s = true) :
    readFlag f (delayStep env k s) = true := by
  rw [delayStep]
  apply serviceAll_mono
  cases f <;> exact h

theorem tickSub_millis (t e : Nat) (he : e < TICK_MOD) :
    tickSub ((t + e) % TICK_MOD) (t % TICK_MOD) = e := by
  simp only [tickSub, TICK_MOD] at *
  omega

/-! ## `waitFlag` -/

theorem waitLoop_timeout (env : Env) (f : Flag) (t0 : Nat) (hdur : ∀ k, env.dur k = 100)
    (hirq : ∀ k, ∀ i ∈ env.irq k, i.flag ≠ f) :
    ∀ (n k fuel : Nat) (s : Slave), k + n + 1 = 50 → n + 1 ≤ fuel → readFlag f s = false →
      s.now = t0 + 100 * k →
      (waitLoop env f (t0 % TICK_MOD) fuel k s).1 = some false ∧
        (waitLoop env f (t0 % TICK_MOD) fuel k s).2.now = t0 + 5000 := by
  intro n
  induction n with
  | zero =>
    intro k fuel s hk hfuel hflag hnow
    obtain ⟨fuel, rfl⟩ : ∃ m, fuel = m + 1 := ⟨fuel - 1, by omega⟩
    have hmil : millis (delayStep env k s) = (t0 + 5000) % TICK_MOD := by
      rw [millis, delayStep_now, hdur, hnow]
      congr 1
      omega
    have hel : tickSub (millis (delayStep env k s)) (t0 % TICK_MOD) = 5000 := by
      rw [hmil]
      exact tickSub_millis t0 5000 (by norm_num [TICK_MOD])
    have hnow1 : (delayStep env k s).now = t0 + 5000 := by
      rw [delayStep_now, hdur, hnow]; omega
    simp [waitLoop, hflag, hel, TIMEOUT, hnow1]
  | succ n ih =>
    intro k fuel s hk hfuel hflag hnow
    obtain ⟨fuel, rfl⟩ : ∃ m, fuel = m + 1 := ⟨fuel - 1, by omega⟩
    have hmil : millis (delayStep env k s) = (t0 + 100 * (k + 1)) % TICK_MOD := by
      rw [millis, delayStep_now, hdur, hnow, Nat.mul_succ, Nat.add_assoc]
    have hel : tickSub (millis (delayStep env k s)) (t0 % TICK_MOD) = 100 * (k + 1) := by
      rw [hmil]
      exact tickSub_millis t0 _ (by norm_num [TICK_MOD]; omega)
    have hlt : ¬ TIMEOUT ≤ 100 * (k + 1) := by
      simp only [TIMEOUT]; omega
    have hflag1 : readFlag f (delayStep env k s) = false := by
      rw [readFlag_delayStep env f k s (hirq k), hflag]
    have hnow1 : (delayStep env k s).now = t0 + 100 * (k + 1) := by
      rw [delayStep_now, hdur, hnow]; omega
    rw [waitLoop]
    simp only [hflag, hel, hlt, if_false, Bool.false_eq_true]
    apply ih (k + 1) fuel _ (by omega) (by omega)
    · cases f <;> exact hflag1
    · exact hnow1

/-- C3: from every start time (the tick counter may wrap during the wait), when the
flag stays false (it is false at the call and its handler does not run) and every
`delay(100)` takes exactly 100 ticks with no other time passing, `waitFlag` returns
false, and the time elapsed when it returns is at least 5000 and less than 5100 (it
is 5000). -/
theorem waitFlag_times_out (fuel : Nat) (env : Env) (f : Flag) (s : Slave)
    (hfuel : 50 ≤ fuel) (hflag : readFlag f s = false) (hdur : ∀ k, env.dur k = 100)
    (hirq : ∀ k, ∀ i ∈ env.irq k, i.flag ≠ f) :
    (waitFlag fuel env f s).1 = some false ∧
      5000 ≤ (waitFlag fuel env f s).2.now - s.now ∧
      (waitFlag fuel env f s).2.now - s.now < 5100 ∧
      (waitFlag fuel env f s).2.now = s.now + 5000 := by
  have h := waitLoop_timeout env f s.now hdur hirq 49 0 fuel s (by omega) (by omega) hflag
    (by omega)
  rw [waitFlag, millis]
  refine ⟨h.1, ?_, ?_, h.2⟩ <;> rw [h.2] <;> omega

/-- C3 at a start time 1000 ticks before the tick counter wraps. -/
theorem waitFlag_times_out_witness :
    (waitFlag 50 Env.quiet Flag.sent { Slave.init 32 with now := 2 ^ 32 - 1000 }).1 = some false ∧
      (waitFlag 50 Env.quiet Flag.sent { Slave.init 32 with now := 2 ^ 32 - 1000 }).2.now =
        2 ^ 32 - 1000 + 5000 := by
  have h := waitFlag_times_out 50 Env.quiet Flag.sent { Slave.init 32 with now := 2 ^ 32 - 1000 }
    (Nat.le_refl _) rfl (fun _ => rfl) (fun _ _ hi => by simp [Env.quiet] at hi)
  exact ⟨h.1, h.2.2.2⟩

/-- C4: from every start time, when the flag is already true at the call, `waitFlag`
returns true and leaves the state as it found it: no `delay` call and no timeout
check is logged and no time has passed. -/
theorem waitFlag_immediate (fuel : Nat) (env : Env) (f : Flag) (s : Slave)
    (hfuel : 1 ≤ fuel) (hflag : readFlag f s = true) :
    waitFlag fuel env f s = (some true, s) ∧
      waits ((waitFlag fuel env f s).2.log.drop s.log.length) = 0 ∧
      (waitFlag fuel env f s).2.now = s.now := by
  obtain ⟨fuel, rfl⟩ : ∃ m, fuel = m + 1 := ⟨fuel - 1, by omega⟩
  have h : waitFlag (fuel + 1) env f s = (some true, s) := by
    rw [waitFlag, waitLoop_true env f _ fuel 0 s hflag]
  rw [h]
  simp [waits]

/-- C4 after `onReceive` ran, with surroundings that would interrupt later. -/
theorem waitFlag_immediate_witness :
    waitFlag 1 Env.late Flag.received (onReceive 11 greeted) =
      (some true, onReceive 11 greeted) := by
  exact (waitFlag_immediate 1 Env.late Flag.received (onReceive 11 greeted)
    (Nat.le_refl _) rfl).1

/-- C7: for every 32-bit start reading `s` and every elapsed time `e < 2 ^ 32`, with
the clock reading `(s + e) mod 2 ^ 32`, the difference computed by `waitFlag` is `e`,
so that its timeout check holds exactly when `e ≥ 5000`, also when the counter wrapped
in between. -/
theorem tickSub_wraparound (s e : Nat) (hs : s < 2 ^ 32) (he : e < 2 ^ 32) :
    tickSub ((s + e) % 2 ^ 32) s = e ∧
      (TIMEOUT ≤ tickSub ((s + e) % 2 ^ 32) s ↔ 5000 ≤ e) := by
  have h : tickSub ((s + e) % 2 ^ 32) s = e := by
    simp only [tickSub, TICK_MOD] at *
    omega
  rw [h]
  exact ⟨rfl, by simp [TIMEOUT]⟩

/-- C7 at a start reading 1000 ticks before the wrap and 5000 ticks elapsed. -/
theorem tickSub_wraparound_witness :
    tickSub ((4294966296 + 5000) % 2 ^ 32) 4294966296 = 5000 ∧
      (TIMEOUT ≤ tickSub ((4294966296 + 5000) % 2 ^ 32) 4294966296 ↔ 5000 ≤ 5000) :=
  tickSub_wraparound 4294966296 5000 (by norm_num) (by norm_num)

theorem flagSets_append (l₁ l₂ : List Event) :
    flagSets (l₁ ++ l₂) = flagSets l₁ ++ flagSets l₂ := by
  induction l₁ with
  | nil => rfl
  | cons e l ih => cases e <;> simp [flagSets, ih]

theorem flagSets_drainEvents (bs : List Byte) : ∀ i, flagSets (drainEvents i bs) = [] := by
  induction bs with
  | nil => intro i; rfl
  | cons b bs ih => intro i; simp [drainEvents, flagSets, ih]

theorem onReceive_flagSets (hint : Int) (s : Slave) :
    flagSets ((onReceive hint s).log.drop s.log.length) = [Flag.received] := by
  simp [onReceive, drainLoop_eq, List.append_assoc, flagSets_append, flagSets_drainEvents,
    flagSets]

theorem waitLoop_mono (env : Env) (f g : Flag) (t : Nat) :
    ∀ (fuel k : Nat) (s : Slave), readFlag g s = true →
      readFlag g (waitLoop env f t fuel k s).2 = true := by
  intro fuel
  induction fuel with
  | zero => intro k s h; exact h
  | succ fuel ih =>
    intro k s h
    rw [waitLoop]
    by_cases hflag : readFlag f s = true
    · simpa [hflag] using h
    · simp only [hflag, if_false, Bool.false_eq_true]
      have h1 := delayStep_mono env g k s h
      split
      · cases g <;> exact h1
      · apply ih
        cases g <;> exact h1

theorem waitLoop_quiet (env : Env) (f : Flag) (t : Nat) (hq : ∀ k, env.irq k = []) :
    ∀ (fuel k : Nat) (s : Slave),
      (waitLoop env f t fuel k s).2.received = s.received ∧
        (waitLoop env f t fuel k s).2.sent = s.sent ∧
        (waitLoop env f t fuel k s).2.buffer = s.buffer ∧
        ∃ ev, (waitLoop env f t fuel k s).2.log = s.log ++ ev ∧ flagSets ev = [] := by
  intro fuel
  induction fuel with
  | zero => intro k s; exact ⟨rfl, rfl, rfl, [], by simp [waitLoop], rfl⟩
  | succ fuel ih =>
    intro k s
    rw [waitLoop]
    by_cases hflag : readFlag f s = true
    · rw [if_pos hflag]
      exact ⟨rfl, rfl, rfl, [], by simp, rfl⟩
    · rw [if_neg hflag]
      have hd : delayStep env k s =
          { s with now := s.now + env.dur k, log := s.log ++ [Event.delay 100] } := by
        rw [delayStep, hq]; rfl
      have hrec : (delayStep env k s).received = s.received := by rw [hd]
      have hsent : (delayStep env k s).sent = s.sent := by rw [hd]
      have hbuf : (delayStep env k s).buffer = s.buffer := by rw [hd]
      have hlog : (delayStep env k s).log = s.log ++ [Event.delay 100] := by rw [hd]
      by_cases hel : TIMEOUT ≤ tickSub (millis (delayStep env k s)) t
      · simp only [hel, if_true]
        refine ⟨hrec, hsent, hbuf, [Event.delay 100,
          Event.timeoutCheck (tickSub (millis (delayStep env k s)) t)], ?_, rfl⟩
        simp [hlog]
      · simp only [hel, if_false]
        obtain ⟨h1, h2, h3, ev, h4, h5⟩ := ih (k + 1)
          { delayStep env k s with
            log := (delayStep env k s).log ++
              [Event.timeoutCheck (tickSub (millis (delayStep env k s)) t)] }
        refine ⟨h1.trans hrec, h2.trans hsent, h3.trans hbuf, [Event.delay 100,
          Event.timeoutCheck (tickSub (millis (delayStep env k s)) t)] ++ ev, ?_, ?_⟩
        · rw [h4]; simp [hlog]
        · rw [flagSets_append, h5]; rfl

theorem run_mono (g : Flag) (op : Op) (s : Slave) (h : readFlag g s = true) :
    readFlag g (op.run s) = true := by
  cases op with
  | onReceive hint incoming => exact service_mono g (Interrupt.receive hint incoming) s h
  | onRequest => exact service_mono g Interrupt.request s h
  | waitFlag fuel env f => exact waitLoop_mono env f g _ fuel 0 s h

theorem runOps_mono (g : Flag) (ops : List Op) :
    ∀ s : Slave, readFlag g s = true → readFlag g (runOps ops s) = true := by
  induction ops with
  | nil => intro s h; exact h
  | cons op ops ih => intro s h; exact ih _ (run_mono g op s h)

/-- C10: both flags are false at process start; along every sequence of `onReceive`,
`onRequest` and `waitFlag` steps (the `waitFlag` steps under any interrupts) a flag
that is true stays true; `onReceive` assigns `received` once and leaves `sent` as it
was, `onRequest` assigns `sent` once and leaves `received` as it was, and `waitFlag`
by itself assigns no flag and leaves both as they were. -/
theorem flags_never_reset :
    (∀ C, (Slave.init C).received = false ∧ (Slave.init C).sent = false) ∧
      (∀ (g : Flag) (ops : List Op) (s : Slave),
        readFlag g s = true → readFlag g (runOps ops s) = true) ∧
      (∀ (hint : Int) (s : Slave), (onReceive hint s).sent = s.sent ∧
        (onReceive hint s).received = true ∧
        flagSets ((onReceive hint s).log.drop s.log.length) = [Flag.received]) ∧
      (∀ s : Slave, (onRequest s).received = s.received ∧ (onRequest s).sent = true ∧
        flagSets ((onRequest s).log.drop s.log.length) = [Flag.sent]) ∧
      (∀ (fuel : Nat) (env : Env) (f : Flag) (s : Slave), (∀ k, env.irq k = []) →
        (waitFlag fuel env f s).2.received = s.received ∧
        (waitFlag fuel env f s).2.sent = s.sent ∧
        flagSets ((waitFlag fuel env f s).2.log.drop s.log.length) = []) := by
  refine ⟨fun C => ⟨rfl, rfl⟩, fun g ops s h => runOps_mono g ops s h, ?_, ?_, ?_⟩
  · intro hint s
    exact ⟨rfl, rfl, onReceive_flagSets hint s⟩
  · intro s
    refine ⟨rfl, rfl, ?_⟩
    simp [onRequest, wireWrite, flagSets]
  · intro fuel env f s hq
    obtain ⟨h1, h2, _, ev, h4, h5⟩ := waitLoop_quiet env f (millis s) hq fuel 0 s
    refine ⟨h1, h2, ?_⟩
    rw [waitFlag, h4, List.drop_left, h5]

/-- C10 on a run in which a wait is interrupted by a receive, a request follows and a
second wait times out: both flags end true. -/
theorem flags_never_reset_witness :
    (runOps [Op.waitFlag 50 Env.late Flag.received, Op.onRequest,
        Op.waitFlag 3 Env.quiet Flag.received] (Slave.init 32)).received = true ∧
      (runOps [Op.waitFlag 3 Env.quiet Flag.received]
        (runOps [Op.onRequest] (Slave.init 32))).sent = true :=
  ⟨flags_never_reset.2.1 Flag.received [Op.onRequest, Op.waitFlag 3 Env.quiet Flag.received]
      _ (by decide),
    flags_never_reset.2.1 Flag.sent [Op.waitFlag 3 Env.quiet Flag.received] _ rfl⟩

/-! ## The read test of the master -/

theorem cstr_append_nul_left (bs rest : List Byte) : cstr (bs ++ 0 :: rest) = cstr bs := by
  induction bs with
  | nil => simp [cstr_cons, cstr_nil]
  | cons b bs ih =>
    by_cases hb : b = 0
    · simp [cstr_cons, hb]
    · simp [cstr_cons, hb, ih]

theorem cstr_of_no_nul (bs : List Byte) (h : ∀ b ∈ bs, b ≠ 0) : cstr bs = bs := by
  induction bs with
  | nil => rfl
  | cons b bs ih =>
    have hb : b ≠ 0 := h b (by simp)
    simp [cstr_cons, hb, ih (fun x hx => h x (by simp [hx]))]

theorem masterReadTest_outcome (C : Nat) (count : Int) (response : List Byte) (m : Master)
    (hC : 1 ≤ C) (hcount : 0 < count) :
    (masterReadTest C count response m).1 =
      if cstr (response.take (C - 1)) = helloMaster then Outcome.pass
      else Outcome.fail Failure.contentMismatch := by
  have hlen : (response.take (C - 1)).length < (List.replicate C (0 : Byte)).length := by
    simp; omega
  have hfill := terminate_fill (response.take (C - 1)) (List.replicate C 0) hlen
  have hcmp : strcmp ((response.take (C - 1)) ++
      0 :: (List.replicate C (0 : Byte)).drop ((response.take (C - 1)).length + 1))
        SLAVE_MESSAGE = 0 ↔ cstr (response.take (C - 1)) = helloMaster := by
    rw [strcmp_eq_zero_iff, cstr_append_nul_left, cstr_SLAVE_MESSAGE]
  simp only [masterReadTest, hcount, if_true, List.length_replicate, sizeSub_one C hC,
    drainLoop_eq, Nat.sub_zero, Nat.zero_add, hfill]
  by_cases h : cstr (response.take (C - 1)) = helloMaster
  · rw [if_pos (hcmp.mpr h), if_pos h]
  · rw [if_neg (fun hc => h (hcmp.mp hc)), if_neg h]

/-- C5 fails as stated: with a 32-cell buffer and a byte count of 14, the drained
bytes "hello master", NUL, "x" are not the 12 bytes "hello master", and the content
assertion passes all the same. -/
theorem masterReadTest_passes_on_longer_input :
    (0 : Int) < 14 ∧ helloMasterNulX.length ≤ 32 - 1 ∧ helloMasterNulX ≠ helloMaster ∧
      (masterReadTest 32 14 helloMasterNulX ⟨[], []⟩).1 = Outcome.pass := by
  decide

/-- C5 as the code has it: for every positive byte count and every drained byte
sequence of length at most `C - 1`, the content assertion passes if and only if the
drained bytes before the first zero byte (all of them when none is zero) are exactly
the 12 bytes "hello master"; for a drained sequence without a zero byte this is
equality with "hello master"; and every run in which the assertion does not pass ends
as a content mismatch. -/
theorem masterReadTest_pass_iff (C : Nat) (count : Int) (response : List Byte) (m : Master)
    (hC : 1 ≤ C) (hcount : 0 < count) (hlen : response.length ≤ C - 1) :
    ((masterReadTest C count response m).1 = Outcome.pass ↔ cstr response = helloMaster) ∧
      ((∀ b ∈ response, b ≠ 0) →
        ((masterReadTest C count response m).1 = Outcome.pass ↔ response = helloMaster)) ∧
      ((masterReadTest C count response m).1 ≠ Outcome.pass →
        (masterReadTest C count response m).1 = Outcome.fail Failure.contentMismatch) := by
  have hout := masterReadTest_outcome C count response m hC hcount
  rw [List.take_of_length_le hlen] at hout
  have hiff : (masterReadTest C count response m).1 = Outcome.pass ↔
      cstr response = helloMaster := by
    rw [hout]
    by_cases h : cstr response = helloMaster <;> simp [h]
  refine ⟨hiff, ?_, ?_⟩
  · intro hnz
    rw [hiff, cstr_of_no_nul response hnz]
  · intro hne
    rw [hout] at hne ⊢
    by_cases h : cstr response = helloMaster
    · simp [h] at hne
    · simp [h]

/-- C5 as the code has it, at the 14 drained bytes "hello master", NUL, "x". -/
theorem masterReadTest_pass_iff_witness :
    ((masterReadTest 32 14 helloMasterNulX ⟨[], []⟩).1 = Outcome.pass ↔
      cstr helloMasterNulX = helloMaster) :=
  (masterReadTest_pass_iff 32 14 helloMasterNulX ⟨[], []⟩ (by decide) (by decide)
    (by decide)).1

theorem masterReadTest_log (C : Nat) (count : Int) (response : List Byte) (m : Master)
    (hC : 1 ≤ C) (hcount : 0 < count) :
    (masterReadTest C count response m).2.log =
      m.log ++ (Event.requestFrom SLAVE_ADDRESS C :: (drainEvents 0 (response.take (C - 1)) ++
        [Event.store (response.take (C - 1)).length 0])) := by
  have hout := masterReadTest_outcome C count response m hC hcount
  simp only [masterReadTest, hcount, if_true, List.length_replicate, sizeSub_one C hC,
    drainLoop_eq, Nat.sub_zero, Nat.zero_add] at hout ⊢
  split <;> simp

/-! ## End to end over an ideal bus -/

theorem masterWriteTest_ok (m : Master) :
    masterWriteTest 0 m =
      (Outcome.pass, ⟨m.rx, m.log ++ [Event.beginTransmission SLAVE_ADDRESS,
        Event.busWrite helloSlave, Event.endTransmission 0]⟩) := by
  have hpay : MASTER_MESSAGE.take (strlen MASTER_MESSAGE) = helloSlave := by
    rw [strlen_MASTER_MESSAGE]; rfl
  simp [masterWriteTest, hpay]

theorem writeRound_eq (hint : Int) (m : Master) (s : Slave) :
    writeRound SLAVE_ADDRESS hint m s =
      (Outcome.pass, ⟨m.rx, m.log ++ [Event.beginTransmission SLAVE_ADDRESS,
        Event.busWrite helloSlave, Event.endTransmission 0]⟩,
        onReceive hint { s with rx := helloSlave }) := by
  have hdel : delivered SLAVE_ADDRESS none [Event.beginTransmission SLAVE_ADDRESS,
      Event.busWrite helloSlave, Event.endTransmission 0] = helloSlave := by decide
  simp [writeRound, masterWriteTest_ok, hdel, service]

theorem readRound_eq (C : Nat) (m : Master) (s : Slave) (hC : 13 ≤ C) :
    readRound C SLAVE_ADDRESS m s =
      ((masterReadTest C 12 helloMaster m).1, (masterReadTest C 12 helloMaster m).2,
        onRequest s) := by
  have hlog := (onRequest_log s)
  have hans : answered ((onRequest s).log.drop s.log.length) = helloMaster := by
    rw [hlog, List.drop_left]
    simp [answered, writes]
  have htake : helloMaster.take C = helloMaster :=
    List.take_of_length_le (by simp [helloMaster]; omega)
  have hlen : ((helloMaster.length : Nat) : Int) = 12 := rfl
  simp [readRound, service, hans, htake, hlen]

/-- C8: over an ideal bus, with both buffers of capacity at least 13 and the peripheral
bound to the address 0x01 the controller uses: the controller write test passes and
writes exactly "hello slave"; fed to `onReceive`, these bytes leave `received` true and
the buffer equal to "hello slave" followed by its terminator, so the check of the
peripheral passes; the bytes `onRequest` then writes, drained by the controller, are
exactly "hello master", the read test of the controller passes, `sent` is true and the
second test of the peripheral passes. -/
theorem end_to_end (C : Nat) (hint : Int) (m : Master) (s : Slave)
    (W R : Outcome × Master × Slave) (hC : 13 ≤ C) (hS : 13 ≤ s.buffer.length)
    (hW : W = writeRound SLAVE_ADDRESS hint m s)
    (hR : R = readRound C SLAVE_ADDRESS W.2.1 W.2.2) :
    W.1 = Outcome.pass ∧
      writes (W.2.1.log.drop m.log.length) = [helloSlave] ∧
      W.2.2.received = true ∧
      cstr W.2.2.buffer = helloSlave ∧
      W.2.2.buffer.take 12 = MASTER_MESSAGE ∧
      (∀ fuel env, (slaveReceiveTest (fuel + 1) env W.2.2).1 = some Outcome.pass) ∧
      R.1 = Outcome.pass ∧
      reads (R.2.1.log.drop W.2.1.log.length) = helloMaster ∧
      R.2.2.sent = true ∧
      (∀ fuel env, (slaveSendTest (fuel + 1) env R.2.2).1 = some Outcome.pass) := by
  subst hR hW
  rw [writeRound_eq hint m s]
  simp only []
  rw [readRound_eq C _ _ hC]
  simp only []
  obtain ⟨hcstr, htake, _, htest⟩ := onReceive_hello hint { s with rx := helloSlave }
    (by show 1 ≤ s.buffer.length; omega)
    (by show helloSlave.length ≤ s.buffer.length - 1; simp [helloSlave]; omega) rfl
  have hmtake : helloMaster.take (C - 1) = helloMaster :=
    List.take_of_length_le (by simp [helloMaster]; omega)
  refine ⟨trivial, ?_, rfl, hcstr, htake, ?_, ?_, ?_, rfl, ?_⟩
  · simp [writes]
  · intro fuel env
    rw [htest fuel env]
  · rw [masterReadTest_outcome C 12 helloMaster _ (by omega) (by decide), hmtake,
      cstr_of_no_nul helloMaster helloMaster_no_nul, if_pos rfl]
  · rw [masterReadTest_log C 12 helloMaster _ (by omega) (by decide), hmtake, List.drop_left]
    simp only [reads, reads_append, reads_drainEvents]
    rfl
  · intro fuel env
    simp [slaveSendTest, waitFlag,
      waitLoop_true env Flag.sent _ fuel 0 (onRequest (onReceive hint { s with rx := helloSlave }))
        rfl]

/-- C8 with 32-cell buffers, from process start. -/
theorem end_to_end_witness :
    (writeRound SLAVE_ADDRESS 11 ⟨[], []⟩ (Slave.init 32)).1 = Outcome.pass ∧
      cstr (writeRound SLAVE_ADDRESS 11 ⟨[], []⟩ (Slave.init 32)).2.2.buffer = helloSlave ∧
      (readRound 32 SLAVE_ADDRESS (writeRound SLAVE_ADDRESS 11 ⟨[], []⟩ (Slave.init 32)).2.1
        (writeRound SLAVE_ADDRESS 11 ⟨[], []⟩ (Slave.init 32)).2.2).1 = Outcome.pass := by
  have h := end_to_end 32 11 ⟨[], []⟩ (Slave.init 32) _ _ (by decide) (by decide) rfl rfl
  exact ⟨h.1, h.2.2.2.1, h.2.2.2.2.2.2.1⟩

end I2CTest
